import Mathlib

/-!
Verification of the 13F fund-tracker diff and signal-aggregation core.

Shallow embedding of:
  * src/core/models.py        (Holding, FundHoldings, PositionDiff, FundDiff,
                               CrowdedTrade, FundBaseline)
  * src/core/options_filter.py (classify_option and helpers)
  * src/core/diff_engine.py   (compute_fund_diff, _build_position_diff,
                               _compute_hhi, _top_n_weight)
  * src/core/concentration.py (compute_portfolio_concentration)
  * src/core/aggregator.py    (aggregate_signals, _compute_sector_flows,
                               _compute_crowding_risks)

Modelling conventions: Python ints become Int; Python floats become ℚ
(the arithmetic in the source is exact apart from binary floating point
rounding, which none of the verified properties depend on); Python
`round(x, 2)` is modelled as rounding to the nearest multiple of 1/100
(ties modelled half-up; no verified property depends on tie behaviour);
Python dicts keyed by position key are modelled by last-match-wins lookup
over the originating list; Python set union of the two key sets is
modelled by first-occurrence deduplication of the concatenated key lists
(Python set iteration order is unspecified and no verified property
depends on it); Python stable `sorted`/`list.sort` with a key become
`List.mergeSort` (stable) with the corresponding comparison.
-/

/-- Option type discriminator of a 13F position (models the
`put_call` literal "PUT"/"CALL" in src/core/models.py). -/
inductive PutCall
  | PUT
  | CALL
deriving DecidableEq, Repr

/-- Share / principal-amount flag (models `sh_prn_type`). -/
inductive ShPrnType
  | SH
  | PRN
deriving DecidableEq, Repr

/-- How a position changed quarter over quarter (models
`PositionChangeType` in src/core/models.py). -/
inductive PositionChangeType
  | NEW
  | EXITED
  | ADDED
  | TRIMMED
  | UNCHANGED
deriving DecidableEq, Repr

/-- Result of the options filter (models the literal
"INCLUDE"/"EXCLUDE"/"FLAG" in src/core/options_filter.py). -/
inductive OptionsAction
  | INCLUDE
  | EXCLUDE
  | FLAG
deriving DecidableEq, Repr

/-- One reported position from a 13F filing (models `Holding` in
src/core/models.py; the voting-authority, discretion and enrichment
fields not read by the verified core functions are omitted). -/
structure Holding where
  cusip : String
  issuer_name : String
  value_thousands : Int
  shares_or_prn_amt : Int
  sh_prn_type : ShPrnType
  put_call : Option PutCall
  ticker : Option String
  sector : Option String
deriving DecidableEq, Repr

/-- Models the `Holding.is_option` property. -/
def Holding.is_option (h : Holding) : Bool :=
  h.put_call.isSome

/-- Models the `Holding.is_equity` property. -/
def Holding.is_equity (h : Holding) : Bool :=
  decide (h.put_call = none) && decide (h.sh_prn_type = ShPrnType.SH)

/-- Models the `Holding.issuer_cusip_prefix` property: the first six
characters of the CUSIP identify the issuer across equity and options. -/
def Holding.issuerPrefix6 (h : Holding) : String :=
  h.cusip.take 6

/-- Position key (cusip, put_call), the dict key used in
compute_fund_diff and _in_top_n_by_value. -/
def holdKey (h : Holding) : String × Option PutCall :=
  (h.cusip, h.put_call)

/-- Models `_fund_has_equity_in_issuer` in src/core/options_filter.py. -/
def fundHasEquityInIssuer (issuer6 : String) (holdings : List Holding) : Bool :=
  holdings.any (fun h => decide (h.issuerPrefix6 = issuer6) && h.is_equity)

/-- Models `_get_equity_value_for_issuer` in src/core/options_filter.py. -/
def getEquityValueForIssuer (issuer6 : String) (holdings : List Holding) : Int :=
  ((holdings.filter (fun h => decide (h.issuerPrefix6 = issuer6) && h.is_equity)).map
    (fun h => h.value_thousands)).sum

/-- Models `_in_top_n_by_value` in src/core/options_filter.py:
membership of the holding's position key among the top n holdings by
dollar value (descending, stable sort as in Python `sorted`). -/
def inTopNByValue (holding : Holding) (all_holdings : List Holding) (n : Nat) : Bool :=
  let sorted := all_holdings.mergeSort (fun a b => decide (b.value_thousands ≤ a.value_thousands))
  decide (holdKey holding ∈ (sorted.take n).map holdKey)

/-- Portfolio weight of an option: value / AUM when AUM is positive,
else 0 (models the guarded division at the top of classify_option). -/
def optionWeight (value_thousands total_aum_thousands : Int) : ℚ :=
  if 0 < total_aum_thousands then (value_thousands : ℚ) / (total_aum_thousands : ℚ) else 0

/-- Number of option positions worth less than 0.2% of AUM (the
market-making-noise count inside classify_option; the generator in the
source requires a positive AUM for a holding to be counted). -/
def smallOptionCount (all_holdings : List Holding) (total_aum_thousands : Int) : Nat :=
  (all_holdings.filter (fun h =>
    h.is_option && decide (0 < total_aum_thousands) &&
      decide ((h.value_thousands : ℚ) / (total_aum_thousands : ℚ) < 2 / 1000))).length

/-- The QoQ significant-value-change test of rule 7 of classify_option:
a prior holding exists with positive value and the absolute value change
relative to it is at least 50%. -/
def qoqChangeRule (holding : Holding) (prior_holding : Option Holding) : Bool :=
  match prior_holding with
  | some ph =>
      decide (0 < ph.value_thousands) &&
        decide ((1 : ℚ) / 2 ≤
          |(holding.value_thousands : ℚ) - (ph.value_thousands : ℚ)| / (ph.value_thousands : ℚ))
  | none => false

/-- Models `classify_option` in src/core/options_filter.py: the
early-return rule chain deciding INCLUDE / EXCLUDE / FLAG for an
options position. -/
def classifyOption (holding : Holding) (all_holdings : List Holding)
    (total_aum_thousands : Int) (change_type : PositionChangeType)
    (prior_holding : Option Holding) (aum_threshold : ℚ) : OptionsAction :=
  if holding.is_option = false then OptionsAction.INCLUDE
  else
    -- Rule 1: new PUT on a stock the fund does not own as equity
    if change_type = PositionChangeType.NEW ∧ holding.put_call = some PutCall.PUT ∧
        fundHasEquityInIssuer holding.issuerPrefix6 all_holdings = false then
      OptionsAction.INCLUDE
    -- Rule 2: new CALL that is significant by weight
    else if change_type = PositionChangeType.NEW ∧ holding.put_call = some PutCall.CALL ∧
        aum_threshold ≤ optionWeight holding.value_thousands total_aum_thousands then
      OptionsAction.INCLUDE
    -- Rule 3: small option alongside a large equity stake in the same issuer
    else if 0 < getEquityValueForIssuer holding.issuerPrefix6 all_holdings ∧
        (holding.value_thousands : ℚ) <
          (getEquityValueForIssuer holding.issuerPrefix6 all_holdings : ℚ) * (10 / 100) then
      OptionsAction.EXCLUDE
    -- Rule 4: any option at or above the weight threshold
    else if aum_threshold ≤ optionWeight holding.value_thousands total_aum_thousands then
      OptionsAction.INCLUDE
    -- Rule 5: market-making noise, 20+ small option positions
    else if 20 ≤ smallOptionCount all_holdings total_aum_thousands then
      OptionsAction.EXCLUDE
    -- Rule 6: in the top 10 by dollar value, only with 10+ holdings
    else if 10 ≤ all_holdings.length ∧ inTopNByValue holding all_holdings 10 = true then
      OptionsAction.INCLUDE
    -- Rule 7: significant QoQ options exposure change
    else if qoqChangeRule holding prior_holding = true then
      OptionsAction.INCLUDE
    -- Rule 8: new position with at least $10M notional (10_000 thousands)
    else if change_type = PositionChangeType.NEW ∧ 10000 ≤ holding.value_thousands then
      OptionsAction.INCLUDE
    else OptionsAction.FLAG

/-- Modelled from the spec (section 4.2 wording, for the refinement part
of the rule-order claim): the same nine-rule first-match-wins chain with
the conditions transcribed from the spec text — rule 3 is written as
"the fund holds equity in the same issuer valued more than 10x this
option's value", and rule 5 counts option positions "each under 0.2% of
AUM" using the spec's guarded weight. -/
def specClassifyOption (holding : Holding) (all_holdings : List Holding)
    (total_aum_thousands : Int) (change_type : PositionChangeType)
    (prior_holding : Option Holding) (aum_threshold : ℚ) : OptionsAction :=
  if holding.is_option = false then OptionsAction.INCLUDE
  else
    if change_type = PositionChangeType.NEW ∧ holding.put_call = some PutCall.PUT ∧
        fundHasEquityInIssuer holding.issuerPrefix6 all_holdings = false then
      OptionsAction.INCLUDE
    else if change_type = PositionChangeType.NEW ∧ holding.put_call = some PutCall.CALL ∧
        aum_threshold ≤ optionWeight holding.value_thousands total_aum_thousands then
      OptionsAction.INCLUDE
    else if 0 < getEquityValueForIssuer holding.issuerPrefix6 all_holdings ∧
        10 * holding.value_thousands < getEquityValueForIssuer holding.issuerPrefix6 all_holdings then
      OptionsAction.EXCLUDE
    else if aum_threshold ≤ optionWeight holding.value_thousands total_aum_thousands then
      OptionsAction.INCLUDE
    else if 20 ≤ ((all_holdings.filter (fun h =>
        h.is_option && decide (optionWeight h.value_thousands total_aum_thousands < 2 / 1000))).length) then
      OptionsAction.EXCLUDE
    else if 10 ≤ all_holdings.length ∧ inTopNByValue holding all_holdings 10 = true then
      OptionsAction.INCLUDE
    else if qoqChangeRule holding prior_holding = true then
      OptionsAction.INCLUDE
    else if change_type = PositionChangeType.NEW ∧ 10000 ≤ holding.value_thousands then
      OptionsAction.INCLUDE
    else OptionsAction.FLAG

/-- All holdings of one fund for one quarter (models `FundHoldings` in
src/core/models.py; dates and fund metadata other than the name are not
read by the verified functions and are omitted — `total_value_thousands`
is carried as a field exactly as in the source, where compute_fund_diff
reads the stored field). -/
structure FundHoldings where
  fund_name : String
  holdings : List Holding
  total_value_thousands : Int
deriving DecidableEq, Repr

/-- Shares of an optional holding, 0 when absent (models
`current_holding.shares_or_prn_amt if current_holding else 0`). -/
def optShares (h : Option Holding) : Int :=
  match h with
  | some h => h.shares_or_prn_amt
  | none => 0

/-- Value of an optional holding, 0 when absent. -/
def optValue (h : Option Holding) : Int :=
  match h with
  | some h => h.value_thousands
  | none => 0

/-- Quarter-over-quarter delta of one position key (models
`PositionDiff` in src/core/models.py; the price-enrichment and themes
fields, which the verified functions never read, are omitted). -/
structure PositionDiff where
  cusip : String
  ticker : Option String
  issuer_name : String
  put_call : Option PutCall
  sector : Option String
  current_shares : Int
  current_value_thousands : Int
  current_weight_pct : ℚ
  prior_shares : Int
  prior_value_thousands : Int
  prior_weight_pct : ℚ
  change_type : PositionChangeType
  shares_change : Int
  shares_change_pct : ℚ
  value_change_thousands : Int
  weight_change_pct : ℚ
  is_options_position : Bool
  options_filter_action : OptionsAction
deriving DecidableEq, Repr

/-- Change classification of `_build_position_diff`: the if/elif chain
over (prior shares, current shares). -/
def classifyChange (prev_shares curr_shares : Int) : PositionChangeType :=
  if prev_shares = 0 ∧ 0 < curr_shares then PositionChangeType.NEW
  else if curr_shares = 0 ∧ 0 < prev_shares then PositionChangeType.EXITED
  else if prev_shares < curr_shares then PositionChangeType.ADDED
  else if curr_shares < prev_shares then PositionChangeType.TRIMMED
  else PositionChangeType.UNCHANGED

/-- Percentage share change of `_build_position_diff`: change / prior
when prior is positive, 1.0 for a fresh position, else 0.0. -/
def sharesChangePct (prev_shares curr_shares : Int) : ℚ :=
  if 0 < prev_shares then ((curr_shares - prev_shares : Int) : ℚ) / (prev_shares : ℚ)
  else if 0 < curr_shares then 1
  else 0

/-- Portfolio weight in percentage points: value / AUM * 100 when the
AUM is positive, else 0.0 (the guarded weight of `_build_position_diff`). -/
def weightPct (value_k aum_k : Int) : ℚ :=
  if 0 < aum_k then (value_k : ℚ) / (aum_k : ℚ) * 100 else 0

/-- Models `_build_position_diff` in src/core/diff_engine.py. -/
def buildPositionDiff (cusip : String) (put_call : Option PutCall)
    (current_holding prior_holding : Option Holding)
    (current_aum_k prior_aum_k : Int)
    (all_current_holdings : List Holding) : PositionDiff :=
  let curr_shares := optShares current_holding
  let prev_shares := optShares prior_holding
  let curr_value_k := optValue current_holding
  let prev_value_k := optValue prior_holding
  let change_type := classifyChange prev_shares curr_shares
  let current_weight := weightPct curr_value_k current_aum_k
  let prior_weight := weightPct prev_value_k prior_aum_k
  let issuer :=
    match current_holding, prior_holding with
    | some ch, _ => ch.issuer_name
    | none, some ph => ph.issuer_name
    | none, none => ""
  let tkr :=
    match current_holding, prior_holding with
    | some ch, _ => ch.ticker
    | none, some ph => ph.ticker
    | none, none => none
  let sct :=
    match current_holding, prior_holding with
    | some ch, _ => ch.sector
    | none, some ph => ph.sector
    | none, none => none
  let is_option := put_call.isSome
  let options_action :=
    if is_option then
      match current_holding with
      | some ch =>
          classifyOption ch all_current_holdings current_aum_k change_type prior_holding (5 / 1000)
      | none => OptionsAction.INCLUDE  -- exited option: always include exits
    else OptionsAction.FLAG
  { cusip := cusip
    ticker := tkr
    issuer_name := issuer
    put_call := put_call
    sector := sct
    current_shares := curr_shares
    current_value_thousands := curr_value_k
    current_weight_pct := current_weight
    prior_shares := prev_shares
    prior_value_thousands := prev_value_k
    prior_weight_pct := prior_weight
    change_type := change_type
    shares_change := curr_shares - prev_shares
    shares_change_pct := sharesChangePct prev_shares curr_shares
    value_change_thousands := curr_value_k - prev_value_k
    weight_change_pct := current_weight - prior_weight
    is_options_position := is_option
    options_filter_action := options_action }

/-- Models `_compute_hhi` in src/core/diff_engine.py: sum of squared
fractional portfolio weights, 0 when the total value is 0. -/
def computeHHI (holdings : List Holding) (total_value_k : Int) : ℚ :=
  if total_value_k = 0 then 0
  else (holdings.map (fun h => ((h.value_thousands : ℚ) / (total_value_k : ℚ)) ^ 2)).sum

/-- Models `_top_n_weight` in src/core/diff_engine.py: the sum of the n
largest fractional weights. -/
def topNWeight (holdings : List Holding) (total_value_k : Int) (n : Nat) : ℚ :=
  if total_value_k = 0 then 0
  else
    let weights := (holdings.map (fun h => (h.value_thousands : ℚ) / (total_value_k : ℚ))).mergeSort
      (fun a b => decide (b ≤ a))
    (weights.take n).sum

/-- Last-match-wins lookup of a position key in a holdings list: the
Python dict comprehensions keyed by (cusip, put_call) let a later entry
overwrite an earlier one with the same key. -/
def lookupKey (hs : List Holding) (k : String × Option PutCall) : Option Holding :=
  (hs.filter (fun h => decide (holdKey h = k))).getLast?

/-- Union of the position keys of the two quarters, first occurrence
first (the Python source takes the set union of the two dicts' key
sets; set iteration order is unspecified and nothing verified depends
on it). -/
def allKeys (current prior : FundHoldings) : List (String × Option PutCall) :=
  ((current.holdings ++ prior.holdings).map holdKey).dedup

/-- The PositionDiff that compute_fund_diff builds for one key of the
key union. -/
def keyDiff (current prior : FundHoldings) (k : String × Option PutCall) : PositionDiff :=
  buildPositionDiff k.1 k.2 (lookupKey current.holdings k) (lookupKey prior.holdings k)
    current.total_value_thousands prior.total_value_thousands current.holdings

/-- Complete per-fund quarter-over-quarter diff (models `FundDiff` in
src/core/models.py; date fields are omitted). -/
structure FundDiff where
  fund_name : String
  current_aum_thousands : Int
  prior_aum_thousands : Int
  aum_change_pct : ℚ
  new_positions : List PositionDiff
  exited_positions : List PositionDiff
  added_positions : List PositionDiff
  trimmed_positions : List PositionDiff
  unchanged_positions : List PositionDiff
  current_hhi : ℚ
  prior_hhi : ℚ
  hhi_change : ℚ
  current_top10_weight : ℚ
  prior_top10_weight : ℚ
deriving DecidableEq, Repr

/-- The keep test of the diff loop: a diff is dropped exactly when it is
an options position whose filter action is EXCLUDE. -/
def keepDiff (d : PositionDiff) : Bool :=
  !(d.is_options_position && decide (d.options_filter_action = OptionsAction.EXCLUDE))

/-- Models `compute_fund_diff` in src/core/diff_engine.py. -/
def computeFundDiff (current prior : FundHoldings) : FundDiff :=
  let current_aum := current.total_value_thousands
  let prior_aum := prior.total_value_thousands
  let diffs := (allKeys current prior).map (keyDiff current prior)
  let kept := diffs.filter keepDiff
  let newP := (kept.filter (fun d => decide (d.change_type = PositionChangeType.NEW))).mergeSort
    (fun a b => decide (b.current_value_thousands ≤ a.current_value_thousands))
  let exitedP := (kept.filter (fun d => decide (d.change_type = PositionChangeType.EXITED))).mergeSort
    (fun a b => decide (b.prior_value_thousands ≤ a.prior_value_thousands))
  let addedP := (kept.filter (fun d => decide (d.change_type = PositionChangeType.ADDED))).mergeSort
    (fun a b => decide (b.shares_change_pct ≤ a.shares_change_pct))
  let trimmedP := (kept.filter (fun d => decide (d.change_type = PositionChangeType.TRIMMED))).mergeSort
    (fun a b => decide (a.shares_change_pct ≤ b.shares_change_pct))
  let unchangedP := kept.filter (fun d => decide (d.change_type = PositionChangeType.UNCHANGED))
  { fund_name := current.fund_name
    current_aum_thousands := current_aum
    prior_aum_thousands := prior_aum
    aum_change_pct :=
      if 0 < prior_aum then ((current_aum - prior_aum : Int) : ℚ) / (prior_aum : ℚ) else 0
    new_positions := newP
    exited_positions := exitedP
    added_positions := addedP
    trimmed_positions := trimmedP
    unchanged_positions := unchangedP
    current_hhi := computeHHI current.holdings current_aum
    prior_hhi := computeHHI prior.holdings prior_aum
    hhi_change := computeHHI current.holdings current_aum - computeHHI prior.holdings prior_aum
    current_top10_weight := topNWeight current.holdings current_aum 10
    prior_top10_weight := topNWeight prior.holdings prior_aum 10 }

/-- Concatenation of the five partitions of a FundDiff. -/
def FundDiff.allPartitions (fd : FundDiff) : List PositionDiff :=
  fd.new_positions ++ fd.exited_positions ++ fd.added_positions ++
    fd.trimmed_positions ++ fd.unchanged_positions

/-- Position key of a PositionDiff. -/
def diffKey (d : PositionDiff) : String × Option PutCall :=
  (d.cusip, d.put_call)

/-- Result record of `compute_portfolio_concentration` in
src/core/concentration.py (the dict literal it returns). -/
structure ConcentrationResult where
  hhi : ℚ
  top5_weight : ℚ
  top10_weight : ℚ
  top20_weight : ℚ
  position_count : Nat
  effective_positions : ℚ
deriving DecidableEq, Repr

/-- Models `compute_portfolio_concentration` in src/core/concentration.py. -/
def computePortfolioConcentration (holdings : List Holding) (total_value_k : Int) :
    ConcentrationResult :=
  if total_value_k = 0 ∨ holdings = [] then
    { hhi := 0, top5_weight := 0, top10_weight := 0, top20_weight := 0,
      position_count := 0, effective_positions := 0 }
  else
    let weights := (holdings.map (fun h => (h.value_thousands : ℚ) / (total_value_k : ℚ))).mergeSort
      (fun a b => decide (b ≤ a))
    let hhi := (weights.map (fun w => w ^ 2)).sum
    { hhi := hhi
      top5_weight := (weights.take 5).sum
      top10_weight := (weights.take 10).sum
      top20_weight := (weights.take 20).sum
      position_count := holdings.length
      effective_positions := if 0 < hhi then 1 / hhi else 0 }

/-- Historical baseline statistics of one fund (models `FundBaseline`
in src/core/models.py; the cik and quarters_available bookkeeping
fields are omitted). -/
structure FundBaseline where
  activity_mean : ℚ
  activity_std : ℚ
  hhi_change_mean : ℚ
  hhi_change_std : ℚ
  max_new_weight_mean : ℚ
  max_new_weight_std : ℚ
deriving DecidableEq, Repr

/-- Models `FundBaseline.activity_zscore`. -/
def FundBaseline.activity_zscore (b : FundBaseline) (current_activity : Int) : ℚ :=
  if b.activity_std = 0 then 0
  else ((current_activity : ℚ) - b.activity_mean) / b.activity_std

/-- Models `FundBaseline.hhi_zscore`. -/
def FundBaseline.hhi_zscore (b : FundBaseline) (current_hhi_change : ℚ) : ℚ :=
  if b.hhi_change_std = 0 then 0
  else (|current_hhi_change| - b.hhi_change_mean) / b.hhi_change_std

/-- Models `FundBaseline.new_position_zscore`. -/
def FundBaseline.new_position_zscore (b : FundBaseline) (current_max_weight : ℚ) : ℚ :=
  if b.max_new_weight_std = 0 then 0
  else (current_max_weight - b.max_new_weight_mean) / b.max_new_weight_std

/-- The action bucket a position is filed under while aggregate_signals
walks one FundDiff (unchanged positions feed only the value/share/
metadata accumulators, never an action bucket). -/
inductive ActionKind
  | initiated
  | added
  | trimmed
  | exited
  | unchangedA
deriving DecidableEq, Repr

/-- One (bucket, fund, position) step of the accumulation loop of
aggregate_signals. -/
structure FundEvent where
  kind : ActionKind
  fund_name : String
  pos : PositionDiff
deriving DecidableEq, Repr

/-- The accumulation steps generated by one FundDiff, in the order the
source loops over the partitions: new, added, trimmed, exited,
unchanged. -/
def diffEvents (d : FundDiff) : List FundEvent :=
  d.new_positions.map (fun p => ⟨ActionKind.initiated, d.fund_name, p⟩)
    ++ d.added_positions.map (fun p => ⟨ActionKind.added, d.fund_name, p⟩)
    ++ d.trimmed_positions.map (fun p => ⟨ActionKind.trimmed, d.fund_name, p⟩)
    ++ d.exited_positions.map (fun p => ⟨ActionKind.exited, d.fund_name, p⟩)
    ++ d.unchanged_positions.map (fun p => ⟨ActionKind.unchangedA, d.fund_name, p⟩)

/-- All accumulation steps of aggregate_signals over all FundDiffs, in
processing order. -/
def allEvents (ds : List FundDiff) : List FundEvent :=
  ds.flatMap diffEvents

/-- The `initiated` bucket of `cusip_actions[c]`: fund names appended
for every new position with that cusip, in processing order (the bucket
is keyed by cusip alone — the option-type discriminator of the position
key is not part of the dict key). -/
def initiatedOf (ds : List FundDiff) (c : String) : List String :=
  ((allEvents ds).filter (fun e =>
    decide (e.kind = ActionKind.initiated) && decide (e.pos.cusip = c))).map (fun e => e.fund_name)

/-- The `added` bucket of `cusip_actions[c]`. -/
def addedOf (ds : List FundDiff) (c : String) : List String :=
  ((allEvents ds).filter (fun e =>
    decide (e.kind = ActionKind.added) && decide (e.pos.cusip = c))).map (fun e => e.fund_name)

/-- The `trimmed` bucket of `cusip_actions[c]`. -/
def trimmedOf (ds : List FundDiff) (c : String) : List String :=
  ((allEvents ds).filter (fun e =>
    decide (e.kind = ActionKind.trimmed) && decide (e.pos.cusip = c))).map (fun e => e.fund_name)

/-- The `exited` bucket of `cusip_actions[c]`. -/
def exitedOf (ds : List FundDiff) (c : String) : List String :=
  ((allEvents ds).filter (fun e =>
    decide (e.kind = ActionKind.exited) && decide (e.pos.cusip = c))).map (fun e => e.fund_name)

/-- Contribution of one accumulation step to `cusip_values`: exited
positions contribute their prior value (current value is zero), every
other bucket contributes the current value. -/
def evValue (e : FundEvent) : Int :=
  match e.kind with
  | ActionKind.exited => e.pos.prior_value_thousands
  | _ => e.pos.current_value_thousands

/-- Contribution of one accumulation step to `cusip_shares`: the exited
loop adds no shares, every other loop adds the current shares. -/
def evShares (e : FundEvent) : Int :=
  match e.kind with
  | ActionKind.exited => 0
  | _ => e.pos.current_shares

/-- Models `cusip_values[c]` after the accumulation loop. -/
def cusipValue (ds : List FundDiff) (c : String) : Int :=
  (((allEvents ds).filter (fun e => decide (e.pos.cusip = c))).map evValue).sum

/-- Models `cusip_shares[c]` after the accumulation loop. -/
def cusipShares (ds : List FundDiff) (c : String) : Int :=
  (((allEvents ds).filter (fun e => decide (e.pos.cusip = c))).map evShares).sum

/-- One step of the `cusip_metadata` accumulation: a new position
overwrites the stored metadata for its cusip unconditionally, every
other bucket stores its position only when the cusip is absent. -/
def metaStep (m : String → Option PositionDiff) (e : FundEvent) : String → Option PositionDiff :=
  match e.kind with
  | ActionKind.initiated => fun c => if c = e.pos.cusip then some e.pos else m c
  | _ => fun c => if c = e.pos.cusip ∧ m c = none then some e.pos else m c

/-- Models `cusip_metadata` after the accumulation loop. -/
def cusipMetadata (ds : List FundDiff) : String → Option PositionDiff :=
  (allEvents ds).foldl metaStep (fun _ => none)

/-- Insertion order of the keys of `cusip_metadata` (first touch by any
bucket, unchanged included). -/
def metaCusips (ds : List FundDiff) : List String :=
  ((allEvents ds).map (fun e => e.pos.cusip)).dedup

/-- Insertion order of the keys of `cusip_actions` (first touch by one
of the four action buckets; unchanged positions never touch it). -/
def actionCusips (ds : List FundDiff) : List String :=
  (((allEvents ds).filter (fun e => decide (¬ e.kind = ActionKind.unchangedA))).map
    (fun e => e.pos.cusip)).dedup

/-- Total number of funds buying a cusip: initiators plus adders. -/
def totalBuying (ds : List FundDiff) (c : String) : Nat :=
  (initiatedOf ds c).length + (addedOf ds c).length

/-- Total number of funds selling a cusip: trimmers plus exiters. -/
def totalSelling (ds : List FundDiff) (c : String) : Nat :=
  (trimmedOf ds c).length + (exitedOf ds c).length

/-- Sector/float enrichment record for one ticker (the per-ticker dict
of the `sector_data` argument; only the float-share count is read by
the verified functions). -/
structure SectorInfo where
  float_shares : Option Int
deriving DecidableEq, Repr

/-- Ticker lookup in the sector-data association list (Python dict with
unique keys: first match). -/
def lookupSector (sd : List (String × SectorInfo)) (t : String) : Option SectorInfo :=
  (sd.find? (fun p => decide (p.1 = t))).map (fun p => p.2)

/-- Python `round(x, 2)`: nearest multiple of 1/100, ties half-up
(no verified property depends on the tie direction). -/
def round2 (x : ℚ) : ℚ :=
  ((round (x * 100) : Int) : ℚ) / 100

/-- Aggregated cross-fund record for one cusip (models `CrowdedTrade`
in src/core/models.py; themes are omitted). -/
structure CrowdedTrade where
  cusip : String
  ticker : Option String
  issuer_name : String
  sector : Option String
  funds_initiated : List String
  funds_added : List String
  funds_trimmed : List String
  funds_exited : List String
  net_fund_sentiment : Int
  aggregate_value_thousands : Int
  aggregate_shares : Int
  float_shares : Option Int
  float_ownership_pct : Option ℚ
deriving DecidableEq, Repr

/-- Models `FundDivergence` in src/core/models.py. -/
structure FundDivergence where
  cusip : String
  ticker : Option String
  issuer_name : String
  sector : Option String
  initiated_by : List String
  exited_by : List String
deriving DecidableEq, Repr

/-- The float-share count and float-ownership percentage computed in
step 2 of aggregate_signals for one cusip (None unless the metadata
carries a truthy ticker present in the sector data with a positive
float-share count; the percentage additionally needs positive
aggregate shares). -/
def floatFields (ds : List FundDiff) (sd : Option (List (String × SectorInfo)))
    (c : String) (tk : Option String) : Option Int × Option ℚ :=
  match tk, sd with
  | some t, some sdl =>
      if t = "" then (none, none)
      else
        match lookupSector sdl t with
        | some info =>
            match info.float_shares with
            | some fs =>
                if 0 < fs then
                  (some fs,
                    if 0 < cusipShares ds c then
                      some (round2 ((cusipShares ds c : ℚ) / (fs : ℚ) * 100))
                    else none)
                else (none, none)
            | none => (none, none)
        | none => (none, none)
  | _, _ => (none, none)

/-- The CrowdedTrade record built in step 2 of aggregate_signals for
one cusip of the action map. -/
def mkTrade (ds : List FundDiff) (sd : Option (List (String × SectorInfo)))
    (c : String) : CrowdedTrade :=
  let meta := cusipMetadata ds c
  let tk := meta.bind (fun m => m.ticker)
  let init := initiatedOf ds c
  let add := addedOf ds c
  let trim := trimmedOf ds c
  let exi := exitedOf ds c
  let ff := floatFields ds sd c tk
  { cusip := c
    ticker := tk
    issuer_name :=
      match meta with
      | some m => m.issuer_name
      | none => ""
    sector := meta.bind (fun m => m.sector)
    funds_initiated := init
    funds_added := add
    funds_trimmed := trim
    funds_exited := exi
    net_fund_sentiment :=
      ((init.length + add.length : Nat) : Int) - ((trim.length + exi.length : Nat) : Int)
    aggregate_value_thousands := cusipValue ds c
    aggregate_shares := cusipShares ds c
    float_shares := ff.1
    float_ownership_pct := ff.2 }

/-- The FundDivergence record built in step 2 of aggregate_signals. -/
def mkDivergence (ds : List FundDiff) (c : String) : FundDivergence :=
  let meta := cusipMetadata ds c
  { cusip := c
    ticker := meta.bind (fun m => m.ticker)
    issuer_name :=
      match meta with
      | some m => m.issuer_name
      | none => ""
    sector := meta.bind (fun m => m.sector)
    initiated_by := initiatedOf ds c
    exited_by := exitedOf ds c }

/-- Per-sector tallies of the count-weighted sector flows. -/
structure SectorFlow where
  buying : Int
  selling : Int
  net : Int
deriving DecidableEq, Repr

/-- Sector label of a position in the sector-flow loops: Python
`pos.sector or "Unknown"` (None and the empty string both fall back). -/
def sectorName (p : PositionDiff) : String :=
  match p.sector with
  | some s => if s = "" then "Unknown" else s
  | none => "Unknown"

/-- One buy-side step of `_compute_sector_flows`: the first position of
a fund touching a sector bumps that sector's buying and net tallies by
one, later positions of the same fund in the same sector are skipped
via the seen set. -/
def buyStep (st : List String × (String → SectorFlow)) (pos : PositionDiff) :
    List String × (String → SectorFlow) :=
  let s := sectorName pos
  if s ∈ st.1 then st
  else
    (s :: st.1,
      fun t =>
        if t = s then
          { buying := (st.2 s).buying + 1, selling := (st.2 s).selling, net := (st.2 s).net + 1 }
        else st.2 t)

/-- One sell-side step of `_compute_sector_flows`. -/
def sellStep (st : List String × (String → SectorFlow)) (pos : PositionDiff) :
    List String × (String → SectorFlow) :=
  let s := sectorName pos
  if s ∈ st.1 then st
  else
    (s :: st.1,
      fun t =>
        if t = s then
          { buying := (st.2 s).buying, selling := (st.2 s).selling + 1, net := (st.2 s).net - 1 }
        else st.2 t)

/-- The contribution of one FundDiff to the sector-flow tallies: buy
actions (new ++ added) with a fresh per-fund seen set, then sell
actions (exited ++ trimmed) with another fresh seen set. -/
def fundSectorStep (counts : String → SectorFlow) (d : FundDiff) : String → SectorFlow :=
  let afterBuy := ((d.new_positions ++ d.added_positions).foldl buyStep ([], counts)).2
  ((d.exited_positions ++ d.trimmed_positions).foldl sellStep ([], afterBuy)).2

/-- Models `_compute_sector_flows` in src/core/aggregator.py. -/
def sectorFlows (ds : List FundDiff) : String → SectorFlow :=
  ds.foldl fundSectorStep (fun _ => { buying := 0, selling := 0, net := 0 })

/-- The (cusip, metadata) pairs of `cusip_metadata.items()` in
insertion order; every cusip of `metaCusips` has stored metadata
because its first event always writes. -/
def metaPairs (ds : List FundDiff) : List (String × PositionDiff) :=
  (metaCusips ds).filterMap (fun c => (cusipMetadata ds c).map (fun m => (c, m)))

/-- Models `_compute_crowding_risks` in src/core/aggregator.py: every
instrument of the metadata map with a truthy resolved ticker, a known
positive float-share count, positive aggregate shares and rounded
float-ownership percentage at or above the threshold, sorted by that
percentage descending. -/
def computeCrowdingRisks (ds : List FundDiff)
    (sd : Option (List (String × SectorInfo))) (threshold_pct : ℚ) : List CrowdedTrade :=
  match sd with
  | none => []
  | some sdl =>
      if sdl.isEmpty then []
      else
        let risks := (metaPairs ds).filterMap (fun cm =>
          match cm.2.ticker with
          | none => none
          | some t =>
              if t = "" then none
              else
                match lookupSector sdl t with
                | none => none
                | some info =>
                    match info.float_shares with
                    | none => none
                    | some fs =>
                        if fs ≤ 0 then none
                        else
                          if cusipShares ds cm.1 ≤ 0 then none
                          else
                            let pct := round2 ((cusipShares ds cm.1 : ℚ) / (fs : ℚ) * 100)
                            if pct < threshold_pct then none
                            else
                              some { cusip := cm.1
                                     ticker := some t
                                     issuer_name := cm.2.issuer_name
                                     sector := cm.2.sector
                                     funds_initiated := []
                                     funds_added := []
                                     funds_trimmed := []
                                     funds_exited := []
                                     net_fund_sentiment := 0
                                     aggregate_value_thousands := cusipValue ds cm.1
                                     aggregate_shares := cusipShares ds cm.1
                                     float_shares := some fs
                                     float_ownership_pct := some pct })
        risks.mergeSort (fun a b =>
          decide ((b.float_ownership_pct.getD 0) ≤ (a.float_ownership_pct.getD 0)))

/-- Aggregated cross-fund signals for one quarter (models
`CrossFundSignals` in src/core/models.py; the quarter marker,
generation timestamp and dollar-weighted sector flows — not touched by
any verified property — are omitted). -/
structure CrossFundSignals where
  crowded_trades : List CrowdedTrade
  divergences : List FundDivergence
  consensus_initiations : List CrowdedTrade
  sector_flows : String → SectorFlow
  crowding_risks : List CrowdedTrade
  funds_analyzed : Nat

/-- Models `aggregate_signals` in src/core/aggregator.py. -/
def aggregateSignals (ds : List FundDiff)
    (min_funds_for_crowd min_funds_for_consensus : Nat)
    (sd : Option (List (String × SectorInfo))) : CrossFundSignals :=
  let crowded := (((actionCusips ds).filter
      (fun c => decide (min_funds_for_crowd ≤ totalBuying ds c))).map (mkTrade ds sd)).mergeSort
    (fun a b => decide (b.net_fund_sentiment ≤ a.net_fund_sentiment))
  let consensus := (((actionCusips ds).filter
      (fun c => decide (min_funds_for_consensus ≤ (initiatedOf ds c).length))).map
        (mkTrade ds sd)).mergeSort
    (fun a b => decide (b.funds_initiated.length ≤ a.funds_initiated.length))
  let divs := (((actionCusips ds).filter
      (fun c => decide (¬ initiatedOf ds c = []) && decide (¬ exitedOf ds c = []))).map
        (mkDivergence ds)).mergeSort
    (fun a b =>
      decide (b.initiated_by.length + b.exited_by.length ≤
        a.initiated_by.length + a.exited_by.length))
  { crowded_trades := crowded
    divergences := divs
    consensus_initiations := consensus
    sector_flows := sectorFlows ds
    crowding_risks := computeCrowdingRisks ds sd 5
    funds_analyzed := ds.length }

/-! ## Claim theorems -/

/-- C2: the change classification computed by the diff engine is a pure
function of (prior_shares, current_shares) — prior = 0 and current > 0
gives NEW; prior > 0 and current = 0 gives EXITED; current > prior
(both nonzero) gives ADDED; current < prior (both nonzero) gives
TRIMMED; current = prior gives UNCHANGED — and shares_change_pct equals
(current − prior) / prior when prior > 0, is exactly 1.0 when prior = 0
and current > 0, and 0.0 when both are zero. -/
theorem classification_pure_function (cusip : String) (put_call : Option PutCall)
    (ch ph : Option Holding) (caum paum : Int) (all : List Holding) :
    ((buildPositionDiff cusip put_call ch ph caum paum all).change_type
        = classifyChange (optShares ph) (optShares ch)
      ∧ (buildPositionDiff cusip put_call ch ph caum paum all).shares_change_pct
        = sharesChangePct (optShares ph) (optShares ch))
    ∧ (∀ p c : Int,
        (p = 0 ∧ 0 < c → classifyChange p c = PositionChangeType.NEW)
      ∧ (0 < p ∧ c = 0 → classifyChange p c = PositionChangeType.EXITED)
      ∧ (0 < p ∧ 0 < c ∧ p < c → classifyChange p c = PositionChangeType.ADDED)
      ∧ (0 < p ∧ 0 < c ∧ c < p → classifyChange p c = PositionChangeType.TRIMMED)
      ∧ (c = p → classifyChange p c = PositionChangeType.UNCHANGED)
      ∧ (0 < p → sharesChangePct p c = ((c - p : Int) : ℚ) / (p : ℚ))
      ∧ (p = 0 ∧ 0 < c → sharesChangePct p c = 1)
      ∧ (p = 0 ∧ c = 0 → sharesChangePct p c = 0)) := by
  constructor
  · exact ⟨rfl, rfl⟩
  · intro p c
    refine ⟨?_, ?_, ?_, ?_, ?_, ?_, ?_, ?_⟩ <;> intro h <;>
      simp only [classifyChange, sharesChangePct] <;>
      split_ifs <;> first | rfl | (exfalso; omega)

/-- Witness for `classification_pure_function` at prior = 0,
current = 1000. -/
theorem classification_pure_function_witness :
    classifyChange 0 1000 = PositionChangeType.NEW ∧ sharesChangePct 0 1000 = 1 := by
  constructor
  · exact ((classification_pure_function "X" none none none 0 0 []).2 0 1000).1
      ⟨rfl, by decide⟩
  · exact ((classification_pure_function "X" none none none 0 0 []).2 0 1000).2.2.2.2.2.2.1
      ⟨rfl, by decide⟩

/-- C6: no core computation divides by zero — position weights are 0.0
when the respective AUM is 0, the AUM-change percentage is 0.0 when the
prior AUM is 0, and each FundBaseline z-score is 0.0 when the matching
standard deviation is 0. -/
theorem division_guards :
    (∀ (cusip : String) (pc : Option PutCall) (ch ph : Option Holding)
        (caum paum : Int) (all : List Holding), caum = 0 →
        (buildPositionDiff cusip pc ch ph caum paum all).current_weight_pct = 0)
  ∧ (∀ (cusip : String) (pc : Option PutCall) (ch ph : Option Holding)
        (caum paum : Int) (all : List Holding), paum = 0 →
        (buildPositionDiff cusip pc ch ph caum paum all).prior_weight_pct = 0)
  ∧ (∀ current prior : FundHoldings, prior.total_value_thousands = 0 →
        (computeFundDiff current prior).aum_change_pct = 0)
  ∧ (∀ (b : FundBaseline) (x : Int), b.activity_std = 0 → b.activity_zscore x = 0)
  ∧ (∀ (b : FundBaseline) (x : ℚ), b.hhi_change_std = 0 → b.hhi_zscore x = 0)
  ∧ (∀ (b : FundBaseline) (x : ℚ), b.max_new_weight_std = 0 → b.new_position_zscore x = 0) := by
  refine ⟨?_, ?_, ?_, ?_, ?_, ?_⟩
  · intro cusip pc ch ph caum paum all h
    simp [buildPositionDiff, weightPct, h]
  · intro cusip pc ch ph caum paum all h
    simp [buildPositionDiff, weightPct, h]
  · intro current prior h
    simp [computeFundDiff, h]
  · intro b x h
    simp [FundBaseline.activity_zscore, h]
  · intro b x h
    simp [FundBaseline.hhi_zscore, h]
  · intro b x h
    simp [FundBaseline.new_position_zscore, h]

/-- Witness for `division_guards`: every guard applied at a concrete
zero denominator. -/
theorem division_guards_witness :
    (buildPositionDiff "X" none none none 0 7 []).current_weight_pct = 0
  ∧ (buildPositionDiff "X" none none none 7 0 []).prior_weight_pct = 0
  ∧ (computeFundDiff ⟨"F", [], 0⟩ ⟨"F", [], 0⟩).aum_change_pct = 0
  ∧ FundBaseline.activity_zscore ⟨1, 0, 1, 0, 1, 0⟩ 7 = 0
  ∧ FundBaseline.hhi_zscore ⟨1, 0, 1, 0, 1, 0⟩ 7 = 0
  ∧ FundBaseline.new_position_zscore ⟨1, 0, 1, 0, 1, 0⟩ 7 = 0 :=
  ⟨division_guards.1 "X" none none none 0 7 [] rfl,
   division_guards.2.1 "X" none none none 7 0 [] rfl,
   division_guards.2.2.1 ⟨"F", [], 0⟩ ⟨"F", [], 0⟩ rfl,
   division_guards.2.2.2.1 ⟨1, 0, 1, 0, 1, 0⟩ 7 rfl,
   division_guards.2.2.2.2.1 ⟨1, 0, 1, 0, 1, 0⟩ 7 rfl,
   division_guards.2.2.2.2.2 ⟨1, 0, 1, 0, 1, 0⟩ 7 rfl⟩

/-- A positive same-issuer equity value implies the fund holds equity
in that issuer (both helpers filter/test the same predicate, and an
empty filter sums to zero). -/
theorem equity_value_pos_has_equity (issuer6 : String) (holdings : List Holding)
    (h : 0 < getEquityValueForIssuer issuer6 holdings) :
    fundHasEquityInIssuer issuer6 holdings = true := by
  by_contra hne
  have hany : holdings.any (fun h => decide (h.issuerPrefix6 = issuer6) && h.is_equity) = false := by
    simpa [fundHasEquityInIssuer] using hne
  have hfil : holdings.filter (fun h => decide (h.issuerPrefix6 = issuer6) && h.is_equity) = [] := by
    rw [List.filter_eq_nil_iff]
    intro a ha
    have := List.any_eq_false.mp hany a ha
    simpa using this
  rw [getEquityValueForIssuer, hfil] at h
  simp at h

/-- C3: classify_option evaluates its rule chain in exactly the
spec 4.2 order with first match winning: with a positive AUM it agrees
with the chain transcribed from the spec text; a new PUT without
same-issuer equity resolves INCLUDE even when the market-making-noise
count (rule 5) is at 20 or more; and the routine-hedge exclusion
(same-issuer equity worth more than 10x the option) returns EXCLUDE
even when the option's weight is at or above the AUM threshold — the
one earlier INCLUDE rule that can pre-empt it by design, a new CALL at
or above the threshold (spec rule 2), is excluded by hypothesis. -/
theorem options_filter_rule_order (holding : Holding) (all : List Holding)
    (aum : Int) (ct : PositionChangeType) (ph : Option Holding) (thr : ℚ) :
    (0 < aum →
      classifyOption holding all aum ct ph thr = specClassifyOption holding all aum ct ph thr)
  ∧ (ct = PositionChangeType.NEW → holding.put_call = some PutCall.PUT →
      fundHasEquityInIssuer holding.issuerPrefix6 all = false →
      20 ≤ smallOptionCount all aum →
      classifyOption holding all aum ct ph thr = OptionsAction.INCLUDE)
  ∧ (holding.is_option = true →
      ¬ (ct = PositionChangeType.NEW ∧ holding.put_call = some PutCall.CALL ∧
          thr ≤ optionWeight holding.value_thousands aum) →
      0 < getEquityValueForIssuer holding.issuerPrefix6 all →
      10 * holding.value_thousands < getEquityValueForIssuer holding.issuerPrefix6 all →
      thr ≤ optionWeight holding.value_thousands aum →
      classifyOption holding all aum ct ph thr = OptionsAction.EXCLUDE) := by
  refine ⟨?_, ?_, ?_⟩
  · intro haum
    have h3 : (0 < getEquityValueForIssuer holding.issuerPrefix6 all ∧
        (holding.value_thousands : ℚ) <
          (getEquityValueForIssuer holding.issuerPrefix6 all : ℚ) * (10 / 100)) ↔
        (0 < getEquityValueForIssuer holding.issuerPrefix6 all ∧
          10 * holding.value_thousands < getEquityValueForIssuer holding.issuerPrefix6 all) := by
      constructor <;> rintro ⟨h1, h2⟩ <;> refine ⟨h1, ?_⟩
      · have h2q : (10 : ℚ) * (holding.value_thousands : ℚ) <
            (getEquityValueForIssuer holding.issuerPrefix6 all : ℚ) := by linarith
        exact_mod_cast h2q
      · have h2q : ((10 * holding.value_thousands : Int) : ℚ) <
            ((getEquityValueForIssuer holding.issuerPrefix6 all : Int) : ℚ) := by
          exact_mod_cast h2
        push_cast at h2q
        linarith
    have h5 : smallOptionCount all aum =
        (all.filter (fun h =>
          h.is_option && decide (optionWeight h.value_thousands aum < 2 / 1000))).length := by
      rw [smallOptionCount]
      congr 1
      apply List.filter_congr
      intro a _
      simp [optionWeight, haum]
    rw [classifyOption, specClassifyOption, h5]
    simp only [h3]
  · intro h1 h2 h3 _
    have hopt : holding.is_option = true := by simp [Holding.is_option, h2]
    rw [classifyOption]
    rw [if_neg (by simp [hopt])]
    rw [if_pos ⟨h1, h2, h3⟩]
  · intro hopt hr2 he1 he2 hw
    have heq : fundHasEquityInIssuer holding.issuerPrefix6 all = true :=
      equity_value_pos_has_equity _ _ he1
    have h3q : (holding.value_thousands : ℚ) <
        (getEquityValueForIssuer holding.issuerPrefix6 all : ℚ) * (10 / 100) := by
      have hc : ((10 * holding.value_thousands : Int) : ℚ) <
          ((getEquityValueForIssuer holding.issuerPrefix6 all : Int) : ℚ) := by
        exact_mod_cast he2
      push_cast at hc
      linarith
    rw [classifyOption]
    rw [if_neg (by simp [hopt])]
    rw [if_neg (by rintro ⟨-, hput, hfe⟩; rw [heq] at hfe; simp at hfe)]
    rw [if_neg hr2]
    rw [if_pos ⟨he1, h3q⟩]

/-- Concrete tiny PUT used in the rule-order witness: one of twenty
identical sub-0.2%-of-AUM option positions. -/
def wOptSmall : Holding :=
  ⟨"ZZZ999001", "ZED", 1, 1, ShPrnType.SH, some PutCall.PUT, none, none⟩

/-- Concrete PUT hedged by a 100x same-issuer equity stake. -/
def wHedgeOpt : Holding :=
  ⟨"AAA111001", "ACME", 100, 1, ShPrnType.SH, some PutCall.PUT, none, none⟩

/-- Concrete same-issuer equity stake for the hedge witness. -/
def wHedgeEq : Holding :=
  ⟨"AAA111002", "ACME", 10000, 100, ShPrnType.SH, none, none, none⟩

/-- Witness for `options_filter_rule_order`: a new PUT with no equity
beats twenty small options (rule 1 before rule 5); a hedged PUT at 10%
weight is excluded (rule 3 before rule 4); and the code chain agrees
with the spec chain at a concrete input with positive AUM. -/
theorem options_filter_rule_order_witness :
    classifyOption wOptSmall (List.replicate 20 wOptSmall) 1000000
        PositionChangeType.NEW none (5 / 1000) = OptionsAction.INCLUDE
  ∧ classifyOption wHedgeOpt [wHedgeEq] 1000
        PositionChangeType.TRIMMED none (5 / 1000) = OptionsAction.EXCLUDE
  ∧ classifyOption wHedgeOpt [wHedgeEq] 1000 PositionChangeType.TRIMMED none (5 / 1000)
      = specClassifyOption wHedgeOpt [wHedgeEq] 1000 PositionChangeType.TRIMMED none (5 / 1000) := by
  have hcount : 20 ≤ smallOptionCount (List.replicate 20 wOptSmall) 1000000 := by
    rw [smallOptionCount, List.filter_replicate]
    norm_num [wOptSmall, Holding.is_option]
  have hw : (5 : ℚ) / 1000 ≤ optionWeight wHedgeOpt.value_thousands 1000 := by
    rw [optionWeight]
    norm_num [wHedgeOpt]
  refine ⟨?_, ?_, ?_⟩
  · exact (options_filter_rule_order wOptSmall (List.replicate 20 wOptSmall) 1000000
      PositionChangeType.NEW none (5 / 1000)).2.1 rfl rfl (by decide) hcount
  · exact (options_filter_rule_order wHedgeOpt [wHedgeEq] 1000
      PositionChangeType.TRIMMED none (5 / 1000)).2.2 (by decide) (by simp) (by decide)
      (by decide) hw
  · exact (options_filter_rule_order wHedgeOpt [wHedgeEq] 1000
      PositionChangeType.TRIMMED none (5 / 1000)).1 (by decide)

/-- Unfolding lemma: the new-positions partition of compute_fund_diff. -/
theorem computeFundDiff_new (current prior : FundHoldings) :
    (computeFundDiff current prior).new_positions =
      ((((allKeys current prior).map (keyDiff current prior)).filter keepDiff).filter
        (fun d => decide (d.change_type = PositionChangeType.NEW))).mergeSort
        (fun a b => decide (b.current_value_thousands ≤ a.current_value_thousands)) := rfl

/-- Unfolding lemma: the exited-positions partition of compute_fund_diff. -/
theorem computeFundDiff_exited (current prior : FundHoldings) :
    (computeFundDiff current prior).exited_positions =
      ((((allKeys current prior).map (keyDiff current prior)).filter keepDiff).filter
        (fun d => decide (d.change_type = PositionChangeType.EXITED))).mergeSort
        (fun a b => decide (b.prior_value_thousands ≤ a.prior_value_thousands)) := rfl

/-- Unfolding lemma: the added-positions partition of compute_fund_diff. -/
theorem computeFundDiff_added (current prior : FundHoldings) :
    (computeFundDiff current prior).added_positions =
      ((((allKeys current prior).map (keyDiff current prior)).filter keepDiff).filter
        (fun d => decide (d.change_type = PositionChangeType.ADDED))).mergeSort
        (fun a b => decide (b.shares_change_pct ≤ a.shares_change_pct)) := rfl

/-- Unfolding lemma: the trimmed-positions partition of compute_fund_diff. -/
theorem computeFundDiff_trimmed (current prior : FundHoldings) :
    (computeFundDiff current prior).trimmed_positions =
      ((((allKeys current prior).map (keyDiff current prior)).filter keepDiff).filter
        (fun d => decide (d.change_type = PositionChangeType.TRIMMED))).mergeSort
        (fun a b => decide (a.shares_change_pct ≤ b.shares_change_pct)) := rfl

/-- Unfolding lemma: the unchanged-positions partition of compute_fund_diff. -/
theorem computeFundDiff_unchanged (current prior : FundHoldings) :
    (computeFundDiff current prior).unchanged_positions =
      (((allKeys current prior).map (keyDiff current prior)).filter keepDiff).filter
        (fun d => decide (d.change_type = PositionChangeType.UNCHANGED)) := rfl

/-- Count of an element in a filtered list, by cases on the predicate. -/
theorem count_filter_cases (a : PositionDiff) (l : List PositionDiff) (p : PositionDiff → Bool) :
    List.count a (l.filter p) = if p a = true then List.count a l else 0 := by
  by_cases h : p a = true
  · rw [if_pos h, List.count_filter h]
  · rw [if_neg h, List.count_eq_zero]
    intro hmem
    exact h (List.mem_filter.mp hmem).2

/-- The five change-type filters partition a list of diffs: their
concatenation is a permutation of the list. -/
theorem filter_partition_perm (l : List PositionDiff) :
    (l.filter (fun d => decide (d.change_type = PositionChangeType.NEW)) ++
      l.filter (fun d => decide (d.change_type = PositionChangeType.EXITED)) ++
      l.filter (fun d => decide (d.change_type = PositionChangeType.ADDED)) ++
      l.filter (fun d => decide (d.change_type = PositionChangeType.TRIMMED)) ++
      l.filter (fun d => decide (d.change_type = PositionChangeType.UNCHANGED))).Perm l := by
  rw [List.perm_iff_count]
  intro a
  simp only [List.count_append, count_filter_cases]
  cases h : a.change_type <;> simp [h]

/-- The key of the diff built for a key is that key. -/
theorem diffKey_keyDiff (current prior : FundHoldings) (k : String × Option PutCall) :
    diffKey (keyDiff current prior k) = k := rfl

/-- A position key is dropped from all partitions exactly when it is an
options key whose options-filter result is EXCLUDE. -/
def droppedKey (current prior : FundHoldings) (k : String × Option PutCall) : Bool :=
  k.2.isSome && decide ((keyDiff current prior k).options_filter_action = OptionsAction.EXCLUDE)

/-- C1: partition completeness of compute_fund_diff — the multiset of
position keys across the five partitions is exactly the union of the
current and prior quarters' position keys minus the options keys whose
filter result is EXCLUDE; the partition keys carry no duplicates, so
every surviving key appears in exactly one partition; and the key union
is membership-equivalent to the union of the two quarters' key sets. -/
theorem partition_keys_complete (current prior : FundHoldings) :
    ((computeFundDiff current prior).allPartitions.map diffKey).Perm
      ((allKeys current prior).filter (fun k => !droppedKey current prior k))
  ∧ ((computeFundDiff current prior).allPartitions.map diffKey).Nodup
  ∧ (∀ k : String × Option PutCall, k ∈ allKeys current prior ↔
      (k ∈ current.holdings.map holdKey ∨ k ∈ prior.holdings.map holdKey)) := by
  have hfilters :
      ((allKeys current prior).map (keyDiff current prior)).filter keepDiff =
        ((allKeys current prior).filter (fun k => !droppedKey current prior k)).map
          (keyDiff current prior) := by
    rw [List.filter_map]
    congr 1
  have hperm1 : (computeFundDiff current prior).allPartitions.Perm
      (((allKeys current prior).map (keyDiff current prior)).filter keepDiff) := by
    simp only [FundDiff.allPartitions, computeFundDiff_new, computeFundDiff_exited,
      computeFundDiff_added, computeFundDiff_trimmed, computeFundDiff_unchanged]
    refine List.Perm.trans ?_ (filter_partition_perm _)
    exact List.Perm.append (List.Perm.append (List.Perm.append (List.Perm.append
      (List.mergeSort_perm _ _) (List.mergeSort_perm _ _)) (List.mergeSort_perm _ _))
      (List.mergeSort_perm _ _)) (List.Perm.refl _)
  have hmap := hperm1.map diffKey
  rw [hfilters, List.map_map] at hmap
  have hcomp : (diffKey ∘ keyDiff current prior) = id :=
    funext (fun k => diffKey_keyDiff current prior k)
  rw [hcomp, List.map_id] at hmap
  have hnod : ((allKeys current prior).filter (fun k => !droppedKey current prior k)).Nodup :=
    List.Nodup.filter _ (List.nodup_dedup _)
  refine ⟨hmap, hmap.symm.nodup hnod, ?_⟩
  intro k
  simp [allKeys, List.mem_dedup, List.map_append, List.mem_append]

/-- C9: a position key present only in the prior quarter whose key
carries an option type is assigned options_filter_action INCLUDE by
_build_position_diff without consulting classify_option, and when its
prior share count is positive the key lands in the exited partition —
an exited options position can never be dropped by the EXCLUDE path. -/
theorem exited_option_included (current prior : FundHoldings)
    (c : String) (pc : PutCall) (ph : Holding)
    (hprior : lookupKey prior.holdings (c, some pc) = some ph)
    (hcurr : lookupKey current.holdings (c, some pc) = none) :
    (keyDiff current prior (c, some pc)).options_filter_action = OptionsAction.INCLUDE
  ∧ (0 < ph.shares_or_prn_amt →
      (c, some pc) ∈ (computeFundDiff current prior).exited_positions.map diffKey) := by
  have hact : (keyDiff current prior (c, some pc)).options_filter_action =
      OptionsAction.INCLUDE := by
    rw [keyDiff, hcurr, hprior]
    rfl
  refine ⟨hact, ?_⟩
  intro hsh
  have hmem : ph ∈ prior.holdings.filter (fun h => decide (holdKey h = (c, some pc))) :=
    List.mem_of_mem_getLast? hprior
  obtain ⟨hmem2, hkey⟩ := List.mem_filter.mp hmem
  have hkeyeq : holdKey ph = (c, some pc) := by simpa using hkey
  have hk : (c, some pc) ∈ allKeys current prior := by
    rw [allKeys, List.mem_dedup, List.map_append, List.mem_append]
    right
    exact hkeyeq ▸ List.mem_map_of_mem holdKey hmem2
  have hct : (keyDiff current prior (c, some pc)).change_type = PositionChangeType.EXITED := by
    have hrw : (keyDiff current prior (c, some pc)).change_type =
        classifyChange (optShares (some ph)) (optShares none) := by
      rw [keyDiff, hcurr, hprior]
      rfl
    rw [hrw]
    simp [optShares, classifyChange, hsh]
  rw [computeFundDiff_exited]
  refine List.mem_map.mpr ⟨keyDiff current prior (c, some pc), ?_,
    diffKey_keyDiff current prior (c, some pc)⟩
  rw [List.mem_mergeSort, List.mem_filter]
  refine ⟨?_, by simp [hct]⟩
  rw [List.mem_filter]
  exact ⟨List.mem_map_of_mem _ hk, by simp [keepDiff, hact]⟩

/-- Concrete prior-quarter PUT for the exited-option witness. -/
def wPriHolding : Holding :=
  ⟨"BBB222001", "BETA", 500, 5, ShPrnType.SH, some PutCall.PUT, none, none⟩

/-- Prior-quarter snapshot holding only `wPriHolding`. -/
def wPriFH : FundHoldings := ⟨"FundW", [wPriHolding], 500⟩

/-- Empty current-quarter snapshot for the exited-option witness. -/
def wCurFH : FundHoldings := ⟨"FundW", [], 0⟩

/-- Witness for `exited_option_included` at a concrete exited PUT. -/
theorem exited_option_included_witness :
    (keyDiff wCurFH wPriFH ("BBB222001", some PutCall.PUT)).options_filter_action =
      OptionsAction.INCLUDE
  ∧ ("BBB222001", some PutCall.PUT) ∈
      (computeFundDiff wCurFH wPriFH).exited_positions.map diffKey := by
  have h := exited_option_included wCurFH wPriFH "BBB222001" PutCall.PUT wPriHolding
    (by decide) (by decide)
  exact ⟨h.1, h.2 (by decide)⟩

/-- Sum of a mapped difference splits into the difference of sums. -/
theorem sum_map_sub_q (l : List Holding) (f g : Holding → ℚ) :
    (l.map (fun h => f h - g h)).sum = (l.map f).sum - (l.map g).sum := by
  induction l with
  | nil => simp
  | cons a t ih =>
      simp only [List.map_cons, List.sum_cons, ih]
      ring

/-- A list of nonnegative rationals summing to zero is all zeros. -/
theorem sum_nonneg_all_zero (l : List ℚ) (hnn : ∀ x ∈ l, 0 ≤ x) (hsum : l.sum = 0) :
    ∀ x ∈ l, x = 0 := by
  induction l with
  | nil => intro x hx; cases hx
  | cons a t ih =>
      have hta : 0 ≤ a := hnn a (List.mem_cons_self a t)
      have htnn : ∀ x ∈ t, 0 ≤ x := fun x hx => hnn x (List.mem_cons_of_mem a hx)
      have htsum : 0 ≤ t.sum := List.sum_nonneg htnn
      rw [List.sum_cons] at hsum
      have ha : a = 0 := by linarith
      have ht : t.sum = 0 := by linarith
      intro x hx
      rcases List.mem_cons.mp hx with rfl | hx
      · exact ha
      · exact ih htnn ht x hx

/-- Counterexample holding: the entire portfolio value. -/
def cxH1 : Holding := ⟨"C0001", "ACORP", 1, 10, ShPrnType.SH, none, none, none⟩
/-- Counterexample holding: a reported position of value 0 (tiny
positions commonly round to 0 in the thousands unit of 13F filings). -/
def cxH0 : Holding := ⟨"C0002", "BCORP", 0, 10, ShPrnType.SH, none, none, none⟩

/-- C5 counterexample: a two-position portfolio with values 1 and 0 has
positive total value equal to the sum of its values, yet _compute_hhi
returns exactly 1 — refuting "HHI = 1 only for a single-position
portfolio". -/
theorem hhi_unity_counterexample :
    computeHHI [cxH1, cxH0] 1 = 1
  ∧ ¬ ([cxH1, cxH0].length = 1)
  ∧ (0 : Int) < 1
  ∧ ([cxH1, cxH0].map (fun h => h.value_thousands)).sum = 1 := by
  refine ⟨?_, by decide, by decide, by decide⟩
  norm_num [computeHHI, cxH1, cxH0]

/-- C5 (amended): for every nonempty holdings set with nonnegative
values whose total (the sum of the values) is positive, the HHI lies in
(0, 1]; it equals 1 exactly when one holding carries the entire value
(so in particular for every single-position portfolio); the computation
returns 0.0 when the total value is 0; and the concentration
calculator's hhi agrees with the diff engine's. -/
theorem hhi_bounds_amended (holdings : List Holding) (total : Int)
    (hnn : ∀ h ∈ holdings, 0 ≤ h.value_thousands)
    (hsum : (holdings.map (fun h => h.value_thousands)).sum = total)
    (hpos : 0 < total) :
    0 < computeHHI holdings total
  ∧ computeHHI holdings total ≤ 1
  ∧ (computeHHI holdings total = 1 ↔ ∃ h ∈ holdings, h.value_thousands = total)
  ∧ (∀ hs : List Holding, computeHHI hs 0 = 0)
  ∧ (∀ (hs : List Holding) (t : Int), (computePortfolioConcentration hs t).hhi = computeHHI hs t) := by
  have htne : total ≠ 0 := by omega
  have hTpos : (0 : ℚ) < (total : ℚ) := by exact_mod_cast hpos
  have hhhi : computeHHI holdings total =
      (holdings.map (fun h => ((h.value_thousands : ℚ) / (total : ℚ)) ^ 2)).sum := by
    rw [computeHHI, if_neg htne]
  -- cast of the value sum
  have hsumq : (holdings.map (fun h => (h.value_thousands : ℚ))).sum = (total : ℚ) := by
    have := congrArg (fun z : Int => (z : ℚ)) hsum
    simpa [Int.cast_list_sum, List.map_map, Function.comp] using this
  -- the weights sum to 1
  have hwsum : (holdings.map (fun h => (h.value_thousands : ℚ) / (total : ℚ))).sum = 1 := by
    have hmul : (holdings.map (fun h => (h.value_thousands : ℚ) * ((total : ℚ))⁻¹)).sum =
        (holdings.map (fun h => (h.value_thousands : ℚ))).sum * ((total : ℚ))⁻¹ :=
      List.sum_map_mul_right _ _ _
    calc (holdings.map (fun h => (h.value_thousands : ℚ) / (total : ℚ))).sum
        = (holdings.map (fun h => (h.value_thousands : ℚ) * ((total : ℚ))⁻¹)).sum := by
          simp [div_eq_mul_inv]
      _ = (holdings.map (fun h => (h.value_thousands : ℚ))).sum * ((total : ℚ))⁻¹ := hmul
      _ = (total : ℚ) * ((total : ℚ))⁻¹ := by rw [hsumq]
      _ = 1 := mul_inv_cancel₀ (ne_of_gt hTpos)
  -- each weight is between 0 and 1
  have hwnn : ∀ h ∈ holdings, (0 : ℚ) ≤ (h.value_thousands : ℚ) / (total : ℚ) := by
    intro h hh
    have : (0 : ℚ) ≤ (h.value_thousands : ℚ) := by exact_mod_cast hnn h hh
    positivity
  have hvle : ∀ h ∈ holdings, (h.value_thousands : ℚ) ≤ (total : ℚ) := by
    intro h hh
    have hle : h.value_thousands ≤ (holdings.map (fun h => h.value_thousands)).sum := by
      apply List.single_le_sum
      · intro x hx
        rcases List.mem_map.mp hx with ⟨a, ha, rfl⟩
        exact hnn a ha
      · exact List.mem_map_of_mem _ hh
    rw [hsum] at hle
    exact_mod_cast hle
  have hwle1 : ∀ h ∈ holdings, (h.value_thousands : ℚ) / (total : ℚ) ≤ 1 := by
    intro h hh
    rw [div_le_one hTpos]
    exact hvle h hh
  have hsqle : ∀ h ∈ holdings,
      ((h.value_thousands : ℚ) / (total : ℚ)) ^ 2 ≤ (h.value_thousands : ℚ) / (total : ℚ) := by
    intro h hh
    have h0 := hwnn h hh
    have h1 := hwle1 h hh
    nlinarith
  have hle1 : computeHHI holdings total ≤ 1 := by
    rw [hhhi]
    calc (holdings.map (fun h => ((h.value_thousands : ℚ) / (total : ℚ)) ^ 2)).sum
        ≤ (holdings.map (fun h => (h.value_thousands : ℚ) / (total : ℚ))).sum :=
          List.sum_le_sum hsqle
      _ = 1 := hwsum
  have hex : ∃ h ∈ holdings, 0 < h.value_thousands := by
    by_contra hno
    push_neg at hno
    have : (holdings.map (fun h => h.value_thousands)).sum ≤ 0 := by
      have : ∀ x ∈ holdings.map (fun h => h.value_thousands), x = 0 := by
        intro x hx
        rcases List.mem_map.mp hx with ⟨a, ha, rfl⟩
        exact le_antisymm (hno a ha) (hnn a ha)
      rw [List.sum_eq_zero this]
    omega
  have hpos0 : 0 < computeHHI holdings total := by
    rw [hhhi]
    obtain ⟨h0, hh0, hv0⟩ := hex
    have hw0 : (0 : ℚ) < ((h0.value_thousands : ℚ) / (total : ℚ)) ^ 2 := by
      have : (0 : ℚ) < (h0.value_thousands : ℚ) := by exact_mod_cast hv0
      positivity
    have hmem : ((h0.value_thousands : ℚ) / (total : ℚ)) ^ 2 ∈
        holdings.map (fun h => ((h.value_thousands : ℚ) / (total : ℚ)) ^ 2) :=
      List.mem_map_of_mem _ hh0
    have := List.single_le_sum (l := holdings.map (fun h => ((h.value_thousands : ℚ) / (total : ℚ)) ^ 2)) ?_ _ hmem
    · linarith
    · intro x hx
      rcases List.mem_map.mp hx with ⟨a, _, rfl⟩
      positivity
  refine ⟨hpos0, hle1, ?_, ?_, ?_⟩
  · constructor
    · -- HHI = 1 → some holding carries the entire value
      intro h1
      by_contra hno
      push_neg at hno
      -- all weights are 0 or 1; if none is 1, all are 0, contradicting the sum
      have hdiff : (holdings.map (fun h =>
          (h.value_thousands : ℚ) / (total : ℚ) -
            ((h.value_thousands : ℚ) / (total : ℚ)) ^ 2)).sum = 0 := by
        have hsub := sum_map_sub_q holdings
          (fun h => (h.value_thousands : ℚ) / (total : ℚ))
          (fun h => ((h.value_thousands : ℚ) / (total : ℚ)) ^ 2)
        rw [hsub, hwsum]
        rw [hhhi] at h1
        rw [h1]
        ring
      have hallz := sum_nonneg_all_zero _ ?_ hdiff
      · -- each weight satisfies w - w^2 = 0, so w = 0 or w = 1
        have hw01 : ∀ h ∈ holdings, (h.value_thousands : ℚ) / (total : ℚ) = 0 ∨
            (h.value_thousands : ℚ) / (total : ℚ) = 1 := by
          intro h hh
          have hz := hallz _ (List.mem_map_of_mem _ hh)
          have hfac : ((h.value_thousands : ℚ) / (total : ℚ)) *
              (1 - (h.value_thousands : ℚ) / (total : ℚ)) =
              (h.value_thousands : ℚ) / (total : ℚ) -
                ((h.value_thousands : ℚ) / (total : ℚ)) ^ 2 := by ring
          have : ((h.value_thousands : ℚ) / (total : ℚ)) *
              (1 - (h.value_thousands : ℚ) / (total : ℚ)) = 0 := by rw [hfac]; exact hz
          rcases mul_eq_zero.mp this with hc | hc
          · exact Or.inl hc
          · right; linarith
        -- no holding has value = total, so no weight is 1, so all weights are 0
        have hallzero : ∀ h ∈ holdings, (h.value_thousands : ℚ) / (total : ℚ) = 0 := by
          intro h hh
          rcases hw01 h hh with hc | hc
          · exact hc
          · exfalso
            apply hno h hh
            field_simp at hc
            exact_mod_cast hc
        have : (holdings.map (fun h => (h.value_thousands : ℚ) / (total : ℚ))).sum = 0 := by
          apply List.sum_eq_zero
          intro x hx
          rcases List.mem_map.mp hx with ⟨a, ha, rfl⟩
          exact hallzero a ha
        rw [hwsum] at this
        norm_num at this
      · intro x hx
        rcases List.mem_map.mp hx with ⟨a, ha, rfl⟩
        have h0 := hwnn a ha
        have h1 := hwle1 a ha
        nlinarith
    · -- some holding carries the entire value → HHI = 1
      rintro ⟨h0, hh0, hv0⟩
      obtain ⟨s, t, rfl⟩ := List.append_of_mem hh0
      rw [hhhi]
      -- the rest of the values sum to zero, hence are all zero
      have hsplit : (s.map (fun h => h.value_thousands)).sum +
          (h0.value_thousands + (t.map (fun h => h.value_thousands)).sum) = total := by
        simpa [List.map_append, List.sum_append, List.sum_cons] using hsum
      have hrest : (s.map (fun h => h.value_thousands)).sum +
          (t.map (fun h => h.value_thousands)).sum = 0 := by omega
      have hsnn : ∀ x ∈ s.map (fun h => h.value_thousands), (0:Int) ≤ x := by
        intro x hx
        rcases List.mem_map.mp hx with ⟨a, ha, rfl⟩
        exact hnn a (by simp [List.mem_append, ha])
      have htnn2 : ∀ x ∈ t.map (fun h => h.value_thousands), (0:Int) ≤ x := by
        intro x hx
        rcases List.mem_map.mp hx with ⟨a, ha, rfl⟩
        exact hnn a (by simp [List.mem_append, List.mem_cons, ha])
      have hs0 : (s.map (fun h => h.value_thousands)).sum = 0 := by
        have h1 := List.sum_nonneg hsnn
        have h2 := List.sum_nonneg htnn2
        omega
      have ht0 : (t.map (fun h => h.value_thousands)).sum = 0 := by
        have h1 := List.sum_nonneg hsnn
        have h2 := List.sum_nonneg htnn2
        omega
      have hszero : ∀ a ∈ s, a.value_thousands = 0 := by
        intro a ha
        have hax : ∀ x ∈ s.map (fun h => h.value_thousands), x = 0 := by
          intro x hx
          rcases List.mem_map.mp hx with ⟨b, hb, rfl⟩
          have hbnn := hnn b (by simp [List.mem_append, hb])
          have hble : b.value_thousands ≤ (s.map (fun h => h.value_thousands)).sum :=
            List.single_le_sum hsnn _ (List.mem_map_of_mem _ hb)
          omega
        exact hax _ (List.mem_map_of_mem _ ha)
      have htzero : ∀ a ∈ t, a.value_thousands = 0 := by
        intro a ha
        have hax : ∀ x ∈ t.map (fun h => h.value_thousands), x = 0 := by
          intro x hx
          rcases List.mem_map.mp hx with ⟨b, hb, rfl⟩
          have hbnn := hnn b (by simp [List.mem_append, List.mem_cons, hb])
          have hble : b.value_thousands ≤ (t.map (fun h => h.value_thousands)).sum :=
            List.single_le_sum htnn2 _ (List.mem_map_of_mem _ hb)
          omega
        exact hax _ (List.mem_map_of_mem _ ha)
      rw [List.map_append, List.sum_append, List.map_cons, List.sum_cons]
      have hssum : (s.map (fun h => ((h.value_thousands : ℚ) / (total : ℚ)) ^ 2)).sum = 0 := by
        apply List.sum_eq_zero
        intro x hx
        rcases List.mem_map.mp hx with ⟨a, ha, rfl⟩
        rw [hszero a ha]
        norm_num
      have htsum : (t.map (fun h => ((h.value_thousands : ℚ) / (total : ℚ)) ^ 2)).sum = 0 := by
        apply List.sum_eq_zero
        intro x hx
        rcases List.mem_map.mp hx with ⟨a, ha, rfl⟩
        rw [htzero a ha]
        norm_num
      rw [hssum, htsum, hv0]
      rw [div_self (ne_of_gt hTpos)]
      norm_num
  · intro hs
    simp [computeHHI]
  · intro hs t
    by_cases h0 : t = 0
    · simp [computePortfolioConcentration, computeHHI, h0]
    · by_cases hnil : hs = []
      · simp [computePortfolioConcentration, computeHHI, h0, hnil]
      · rw [computeHHI, if_neg h0]
        rw [computePortfolioConcentration, if_neg (by tauto)]
        show ((((hs.map (fun h => (h.value_thousands : ℚ) / (t : ℚ))).mergeSort
            (fun a b => decide (b ≤ a))).map (fun w => w ^ 2)).sum) = _
        rw [((List.mergeSort_perm _ _).map _).sum_eq, List.map_map]
        rfl

/-- Witness for `hhi_bounds_amended` at a concrete single-position
portfolio. -/
theorem hhi_bounds_amended_witness :
    0 < computeHHI [cxH1] 1 ∧ computeHHI [cxH1] 1 ≤ 1
  ∧ (computeHHI [cxH1] 1 = 1 ↔ ∃ h ∈ [cxH1], h.value_thousands = 1) := by
  have h := hhi_bounds_amended [cxH1] 1 (by decide) (by decide) (by decide)
  exact ⟨h.1, h.2.1, h.2.2.1⟩

/-- The cusip of the trade record built for a cusip is that cusip. -/
theorem mkTrade_cusip (ds : List FundDiff) (sd : Option (List (String × SectorInfo)))
    (c : String) : (mkTrade ds sd c).cusip = c := rfl

/-- A minimal equity PositionDiff on cusip "X0001" for the
crowd-threshold examples. -/
def exPos (ct : PositionChangeType) : PositionDiff :=
  { cusip := "X0001", ticker := none, issuer_name := "XCORP", put_call := none, sector := none,
    current_shares := 100, current_value_thousands := 50, current_weight_pct := 0,
    prior_shares := 0, prior_value_thousands := 0, prior_weight_pct := 0,
    change_type := ct, shares_change := 100, shares_change_pct := 1,
    value_change_thousands := 50, weight_change_pct := 0,
    is_options_position := false, options_filter_action := OptionsAction.FLAG }

/-- A FundDiff with the given new and added partitions, other
partitions empty. -/
def exFundDiff (name : String) (newP addP : List PositionDiff) : FundDiff :=
  { fund_name := name, current_aum_thousands := 1000, prior_aum_thousands := 1000,
    aum_change_pct := 0, new_positions := newP, exited_positions := [],
    added_positions := addP, trimmed_positions := [], unchanged_positions := [],
    current_hhi := 0, prior_hhi := 0, hhi_change := 0,
    current_top10_weight := 0, prior_top10_weight := 0 }

/-- First buying fund of the threshold examples (initiates X0001). -/
def exBuyA : FundDiff := exFundDiff "FundA" [exPos PositionChangeType.NEW] []

/-- Second buying fund of the threshold examples (adds to X0001). -/
def exBuyB : FundDiff := exFundDiff "FundB" [] [exPos PositionChangeType.ADDED]

/-- Third buying fund of the threshold examples (adds to X0001). -/
def exBuyC : FundDiff := exFundDiff "FundC" [] [exPos PositionChangeType.ADDED]

/-- C4: an instrument of the action map is emitted as a crowded trade
exactly when its total buying fund count (initiators plus adders) is at
least min_funds_for_crowd; every emitted record's net_fund_sentiment
equals (initiated + added) − (trimmed + exited); and concretely, two
buying funds with the default threshold 3 produce no crowded trade
while a third buying fund produces exactly one. -/
theorem crowded_trade_threshold (ds : List FundDiff) (mc mcons : Nat)
    (sd : Option (List (String × SectorInfo))) :
    (∀ c, c ∈ actionCusips ds →
      (c ∈ (aggregateSignals ds mc mcons sd).crowded_trades.map (fun t => t.cusip) ↔
        mc ≤ totalBuying ds c))
  ∧ (∀ t, t ∈ (aggregateSignals ds mc mcons sd).crowded_trades →
      t.net_fund_sentiment =
        ((t.funds_initiated.length + t.funds_added.length : Nat) : Int) -
          ((t.funds_trimmed.length + t.funds_exited.length : Nat) : Int))
  ∧ (aggregateSignals [exBuyA, exBuyB] 3 3 none).crowded_trades = []
  ∧ (aggregateSignals [exBuyA, exBuyB, exBuyC] 3 3 none).crowded_trades.map
      (fun t => t.cusip) = ["X0001"] := by
  refine ⟨?_, ?_, ?_, ?_⟩
  case refine_3 =>
    simp only [aggregateSignals]
    rw [show (actionCusips [exBuyA, exBuyB]).filter
        (fun c => decide (3 ≤ totalBuying [exBuyA, exBuyB] c)) = [] from by decide]
    simp [List.mergeSort_nil]
  case refine_4 =>
    simp only [aggregateSignals]
    rw [show (actionCusips [exBuyA, exBuyB, exBuyC]).filter
        (fun c => decide (3 ≤ totalBuying [exBuyA, exBuyB, exBuyC] c)) = ["X0001"] from by decide]
    simp [List.mergeSort_singleton, mkTrade_cusip]
  · intro c hc
    simp only [aggregateSignals, List.mem_map, List.mem_mergeSort, List.mem_filter,
      decide_eq_true_eq]
    constructor
    · rintro ⟨t, ⟨c', ⟨hc', hbuy⟩, rfl⟩, rfl⟩
      exact hbuy
    · intro hbuy
      exact ⟨mkTrade ds sd c, ⟨c, ⟨hc, hbuy⟩, rfl⟩, mkTrade_cusip ds sd c⟩
  · intro t ht
    simp only [aggregateSignals, List.mem_mergeSort, List.mem_map] at ht
    rcases ht with ⟨c', hc', rfl⟩
    rfl

/-- Witness for `crowded_trade_threshold`: the third buying fund tips
cusip "X0001" into the crowded-trade list. -/
theorem crowded_trade_threshold_witness :
    "X0001" ∈ (aggregateSignals [exBuyA, exBuyB, exBuyC] 3 3 none).crowded_trades.map
      (fun t => t.cusip) :=
  ((crowded_trade_threshold [exBuyA, exBuyB, exBuyC] 3 3 none).1 "X0001"
    (by decide)).mpr (by decide)

/-- Folding the buy-side step over a list of positions bumps a sector's
buying and net tallies by one exactly when the sector is touched by the
list and not yet in the seen set; the selling tally is untouched. -/
theorem buyStep_foldl (l : List PositionDiff) (seen : List String)
    (counts : String → SectorFlow) (s : String) :
    (l.foldl buyStep (seen, counts)).2 s =
      { buying := (counts s).buying + (if s ∉ seen ∧ s ∈ l.map sectorName then 1 else 0),
        selling := (counts s).selling,
        net := (counts s).net + (if s ∉ seen ∧ s ∈ l.map sectorName then 1 else 0) } := by
  induction l generalizing seen counts with
  | nil => simp
  | cons x xs ih =>
      rw [List.foldl_cons]
      by_cases hx : sectorName x ∈ seen
      · rw [show buyStep (seen, counts) x = (seen, counts) from by rw [buyStep, if_pos hx]]
        rw [ih]
        by_cases hs : s = sectorName x
        · subst hs
          simp [hx]
        · by_cases hmem : s ∈ xs.map sectorName <;> by_cases hseen : s ∈ seen <;>
            simp [hs, hmem, hseen]
      · rw [show buyStep (seen, counts) x = (sectorName x :: seen,
          fun t => if t = sectorName x then
            { buying := (counts (sectorName x)).buying + 1,
              selling := (counts (sectorName x)).selling,
              net := (counts (sectorName x)).net + 1 }
          else counts t) from by rw [buyStep, if_neg hx]]
        rw [ih]
        by_cases hs : s = sectorName x
        · subst hs
          simp [hx]
        · by_cases hmem : s ∈ xs.map sectorName <;> by_cases hseen : s ∈ seen <;>
            simp [hs, hmem, hseen]

/-- Sell-side analogue of `buyStep_foldl`: the selling tally is bumped
and the net tally decremented once per fresh touched sector. -/
theorem sellStep_foldl (l : List PositionDiff) (seen : List String)
    (counts : String → SectorFlow) (s : String) :
    (l.foldl sellStep (seen, counts)).2 s =
      { buying := (counts s).buying,
        selling := (counts s).selling + (if s ∉ seen ∧ s ∈ l.map sectorName then 1 else 0),
        net := (counts s).net - (if s ∉ seen ∧ s ∈ l.map sectorName then 1 else 0) } := by
  induction l generalizing seen counts with
  | nil => simp
  | cons x xs ih =>
      rw [List.foldl_cons]
      by_cases hx : sectorName x ∈ seen
      · rw [show sellStep (seen, counts) x = (seen, counts) from by rw [sellStep, if_pos hx]]
        rw [ih]
        by_cases hs : s = sectorName x
        · subst hs
          simp [hx]
        · by_cases hmem : s ∈ xs.map sectorName <;> by_cases hseen : s ∈ seen <;>
            simp [hs, hmem, hseen]
      · rw [show sellStep (seen, counts) x = (sectorName x :: seen,
          fun t => if t = sectorName x then
            { buying := (counts (sectorName x)).buying,
              selling := (counts (sectorName x)).selling + 1,
              net := (counts (sectorName x)).net - 1 }
          else counts t) from by rw [sellStep, if_neg hx]]
        rw [ih]
        by_cases hs : s = sectorName x
        · subst hs
          simp [hx]
        · by_cases hmem : s ∈ xs.map sectorName <;> by_cases hseen : s ∈ seen <;>
            simp [hs, hmem, hseen]

/-- One fund's contribution to the sector-flow tallies: at most one
buy-side bump and one sell-side bump per sector, regardless of how many
of its positions touch that sector. -/
theorem fundSectorStep_eq (counts : String → SectorFlow) (d : FundDiff) (s : String) :
    fundSectorStep counts d s =
      { buying := (counts s).buying +
          (if s ∈ (d.new_positions ++ d.added_positions).map sectorName then 1 else 0),
        selling := (counts s).selling +
          (if s ∈ (d.exited_positions ++ d.trimmed_positions).map sectorName then 1 else 0),
        net := (counts s).net +
          (if s ∈ (d.new_positions ++ d.added_positions).map sectorName then 1 else 0) -
          (if s ∈ (d.exited_positions ++ d.trimmed_positions).map sectorName then 1 else 0) } := by
  rw [fundSectorStep, sellStep_foldl, buyStep_foldl]
  by_cases hb : s ∈ (d.new_positions ++ d.added_positions).map sectorName <;>
    by_cases hl : s ∈ (d.exited_positions ++ d.trimmed_positions).map sectorName <;>
      simp [hb, hl]

/-- Folding the per-fund step over a list of FundDiffs accumulates one
buying count per fund touching the sector with a buy action and one
selling count per fund touching it with a sell action. -/
theorem sectorFlows_foldl (ds : List FundDiff) (counts : String → SectorFlow) (s : String) :
    (ds.foldl fundSectorStep counts) s =
      { buying := (counts s).buying + (ds.countP (fun d =>
          decide (s ∈ (d.new_positions ++ d.added_positions).map sectorName)) : Int),
        selling := (counts s).selling + (ds.countP (fun d =>
          decide (s ∈ (d.exited_positions ++ d.trimmed_positions).map sectorName)) : Int),
        net := (counts s).net + (ds.countP (fun d =>
          decide (s ∈ (d.new_positions ++ d.added_positions).map sectorName)) : Int) -
          (ds.countP (fun d =>
            decide (s ∈ (d.exited_positions ++ d.trimmed_positions).map sectorName)) : Int) } := by
  induction ds generalizing counts with
  | nil => simp
  | cons d ds ih =>
      rw [List.foldl_cons, ih, fundSectorStep_eq]
      rw [SectorFlow.mk.injEq]
      refine ⟨?_, ?_, ?_⟩ <;>
        simp only [List.countP_cons, decide_eq_true_eq] <;>
        by_cases hb : s ∈ (d.new_positions ++ d.added_positions).map sectorName <;>
          by_cases hl : s ∈ (d.exited_positions ++ d.trimmed_positions).map sectorName <;>
            simp [hb, hl] <;> omega

/-- C7: in the count-weighted sector flows of aggregate_signals, each
fund contributes at most +1 to a sector's buying tally (exactly 1 when
some new or added position of the fund touches the sector, else 0), at
most +1 to its selling tally (symmetrically for exited and trimmed
positions), and the net tally is exactly buying minus selling — so a
fund's contributions are deduplicated per fund-sector pair. -/
theorem sector_flow_dedup (ds : List FundDiff) (mc mcons : Nat)
    (sd : Option (List (String × SectorInfo))) (s : String) :
    ((aggregateSignals ds mc mcons sd).sector_flows s).buying = (ds.countP (fun d =>
        decide (s ∈ (d.new_positions ++ d.added_positions).map sectorName)) : Int)
  ∧ ((aggregateSignals ds mc mcons sd).sector_flows s).selling = (ds.countP (fun d =>
        decide (s ∈ (d.exited_positions ++ d.trimmed_positions).map sectorName)) : Int)
  ∧ ((aggregateSignals ds mc mcons sd).sector_flows s).net =
      ((aggregateSignals ds mc mcons sd).sector_flows s).buying -
        ((aggregateSignals ds mc mcons sd).sector_flows s).selling := by
  have h : (aggregateSignals ds mc mcons sd).sector_flows s =
      (ds.foldl fundSectorStep (fun _ => { buying := 0, selling := 0, net := 0 })) s := rfl
  rw [h, sectorFlows_foldl]
  refine ⟨by simp, by simp, by simp⟩

/-- Rounding to two decimals preserves an integer lower bound. -/
theorem le_round2 (n : Int) (x : ℚ) (h : (n : ℚ) ≤ x) : (n : ℚ) ≤ round2 x := by
  rw [round2]
  have h1 : (100 * n : Int) ≤ round (x * 100) := by
    rw [round_eq, Int.le_floor]
    push_cast
    linarith
  have h2 : ((100 * n : Int) : ℚ) ≤ ((round (x * 100) : Int) : ℚ) := by exact_mod_cast h1
  push_cast at h2
  linarith

/-- C8: crowding-risk emission — the crowding-risk list does not depend
on the crowd/consensus thresholds at all; every instrument of the
metadata map whose metadata carries a resolved (nonempty) ticker with a
known positive float-share count and whose aggregate tracked shares are
at least 5% of float appears in the list (a single fund suffices, the
witness below uses one); and the list is sorted by float-ownership
percentage descending. -/
theorem crowding_risk_membership (ds : List FundDiff) (sdl : List (String × SectorInfo))
    (c : String) (m : PositionDiff) (t : String) (info : SectorInfo) (fs : Int)
    (hmem : c ∈ metaCusips ds)
    (hmeta : cusipMetadata ds c = some m)
    (ht : m.ticker = some t) (hne : ¬ t = "")
    (hsd : lookupSector sdl t = some info)
    (hfs : info.float_shares = some fs) (hfspos : 0 < fs)
    (hpct : 5 ≤ (cusipShares ds c : ℚ) / (fs : ℚ) * 100) :
    (∀ mc mcons mc' mcons' : Nat,
      (aggregateSignals ds mc mcons (some sdl)).crowding_risks =
        (aggregateSignals ds mc' mcons' (some sdl)).crowding_risks)
  ∧ c ∈ (aggregateSignals ds 3 3 (some sdl)).crowding_risks.map (fun tr => tr.cusip)
  ∧ (∀ (sd : Option (List (String × SectorInfo))) (mc mcons : Nat),
      ((aggregateSignals ds mc mcons sd).crowding_risks).Pairwise
        (fun a b => b.float_ownership_pct.getD 0 ≤ a.float_ownership_pct.getD 0)) := by
  refine ⟨fun mc mcons mcx mcy => rfl, ?_, ?_⟩
  · -- membership of the qualifying instrument
    have hfsq : (0 : ℚ) < (fs : ℚ) := by exact_mod_cast hfspos
    have hkey : (5 : ℚ) * (fs : ℚ) ≤ (cusipShares ds c : ℚ) * 100 := by
      have h := mul_le_mul_of_nonneg_right hpct (le_of_lt hfsq)
      calc (5 : ℚ) * (fs : ℚ)
          ≤ (cusipShares ds c : ℚ) / (fs : ℚ) * 100 * (fs : ℚ) := h
        _ = (cusipShares ds c : ℚ) * 100 := by field_simp
    have haggpos : 0 < cusipShares ds c := by
      by_contra hno
      push_neg at hno
      have hq : (cusipShares ds c : ℚ) ≤ 0 := by exact_mod_cast hno
      nlinarith
    have hfsle : ¬ fs ≤ 0 := not_le.mpr hfspos
    have haggle : ¬ cusipShares ds c ≤ 0 := not_le.mpr haggpos
    have hnotlt : ¬ round2 ((cusipShares ds c : ℚ) / (fs : ℚ) * 100) < 5 := by
      rw [not_lt]
      have := le_round2 5 ((cusipShares ds c : ℚ) / (fs : ℚ) * 100) (by push_cast; linarith)
      push_cast at this
      linarith
    have hnonempty : sdl.isEmpty = false := by
      cases sdl with
      | nil => simp [lookupSector] at hsd
      | cons a l => rfl
    have hpair : (c, m) ∈ metaPairs ds :=
      List.mem_filterMap.mpr ⟨c, hmem, by rw [hmeta]; rfl⟩
    show c ∈ (computeCrowdingRisks ds (some sdl) 5).map (fun tr => tr.cusip)
    simp only [computeCrowdingRisks, hnonempty, Bool.false_eq_true, if_false]
    refine List.mem_map.mpr
      ⟨{ cusip := c, ticker := some t, issuer_name := m.issuer_name,
         sector := m.sector, funds_initiated := [], funds_added := [], funds_trimmed := [],
         funds_exited := [], net_fund_sentiment := 0,
         aggregate_value_thousands := cusipValue ds c,
         aggregate_shares := cusipShares ds c, float_shares := some fs,
         float_ownership_pct := some (round2 ((cusipShares ds c : ℚ) / (fs : ℚ) * 100)) },
       List.mem_mergeSort.mpr (List.mem_filterMap.mpr ⟨(c, m), hpair, ?_⟩), rfl⟩
    simp only [ht, hsd, hfs]
    rw [if_neg hne, if_neg hfsle, if_neg haggle, if_neg hnotlt]
  · -- sortedness, for any sector data and thresholds
    intro sd mc mcons
    show (computeCrowdingRisks ds sd 5).Pairwise _
    cases sd with
    | none =>
        simp only [computeCrowdingRisks]
        exact List.Pairwise.nil
    | some sdl' =>
        simp only [computeCrowdingRisks]
        by_cases he : sdl'.isEmpty
        · simp [he]
        · simp only [he, Bool.false_eq_true, if_false]
          refine List.Pairwise.imp ?_ (List.sorted_mergeSort ?_ ?_ _)
          · intro a b hab
            exact of_decide_eq_true hab
          · intro a b cc h1 h2
            exact decide_eq_true
              (le_trans (of_decide_eq_true h2) (of_decide_eq_true h1))
          · intro a b
            simpa using le_total (b.float_ownership_pct.getD 0) (a.float_ownership_pct.getD 0)

/-- Single-fund position for the crowding-risk witness: 50 shares of
cusip "R0001" with resolved ticker "RTK". -/
def exRiskPos : PositionDiff :=
  { cusip := "R0001", ticker := some "RTK", issuer_name := "RISKCO", put_call := none,
    sector := none, current_shares := 50, current_value_thousands := 40,
    current_weight_pct := 0, prior_shares := 20, prior_value_thousands := 10,
    prior_weight_pct := 0, change_type := PositionChangeType.ADDED, shares_change := 30,
    shares_change_pct := 1, value_change_thousands := 30, weight_change_pct := 0,
    is_options_position := false, options_filter_action := OptionsAction.FLAG }

/-- The single FundDiff of the crowding-risk witness. -/
def exRiskDiff : FundDiff := exFundDiff "FundR" [] [exRiskPos]

/-- Sector data of the crowding-risk witness: ticker "RTK" floats 1000
shares, so one fund holding 50 shares owns exactly 5% of float. -/
def exRiskSd : List (String × SectorInfo) := [("RTK", ⟨some 1000⟩)]

/-- Witness for `crowding_risk_membership`: a single fund holding
exactly 5% of float is emitted. -/
theorem crowding_risk_membership_witness :
    "R0001" ∈ (aggregateSignals [exRiskDiff] 3 3 (some exRiskSd)).crowding_risks.map
      (fun tr => tr.cusip) := by
  have h50 : cusipShares [exRiskDiff] "R0001" = 50 := by decide
  exact (crowding_risk_membership [exRiskDiff] exRiskSd "R0001" exRiskPos "RTK"
    ⟨some 1000⟩ 1000 (by decide) (by decide) (by decide) (by decide) (by decide)
    (by decide) (by decide) (by rw [h50]; norm_num)).2.1

/-- The initiated bucket of a cusip collects one fund-name entry per
new position with that cusip across all funds, in processing order,
ignoring the position's option-type discriminator. -/
theorem initiatedOf_flatMap (ds : List FundDiff) (c : String) :
    initiatedOf ds c = ds.flatMap (fun d =>
      (d.new_positions.filter (fun p => decide (p.cusip = c))).map
        (fun _ => d.fund_name)) := by
  induction ds with
  | nil => rfl
  | cons d ds ih =>
      have htail : (List.filter (fun e => decide (e.kind = ActionKind.initiated) &&
          decide (e.pos.cusip = c)) (ds.flatMap diffEvents)).map (fun e => e.fund_name) =
          ds.flatMap (fun d =>
            (d.new_positions.filter (fun p => decide (p.cusip = c))).map
              (fun _ => d.fund_name)) := ih
      rw [initiatedOf, allEvents, List.flatMap_cons, List.flatMap_cons, List.filter_append,
        List.map_append, htail]
      congr 1
      simp [diffEvents, List.filter_append, List.filter_map, Function.comp_def, List.map_map]

/-- New equity, PUT and CALL positions on the same cusip "M0001" used
in the mixed-instrument example. -/
def exMixPos (pc : Option PutCall) (v sh : Int) : PositionDiff :=
  { cusip := "M0001", ticker := none, issuer_name := "MIXCO", put_call := pc, sector := none,
    current_shares := sh, current_value_thousands := v, current_weight_pct := 0,
    prior_shares := 0, prior_value_thousands := 0, prior_weight_pct := 0,
    change_type := PositionChangeType.NEW, shares_change := sh, shares_change_pct := 1,
    value_change_thousands := v, weight_change_pct := 0,
    is_options_position := pc.isSome, options_filter_action := OptionsAction.FLAG }

/-- Fund Alpha initiates both an equity position and a PUT on the same
cusip in one quarter. -/
def exMixA : FundDiff :=
  exFundDiff "Alpha" [exMixPos none 100 10, exMixPos (some PutCall.PUT) 20 5] []

/-- Fund Beta initiates a CALL on the same cusip. -/
def exMixB : FundDiff := exFundDiff "Beta" [exMixPos (some PutCall.CALL) 30 7] []

/-- The single CrowdedTrade record the mixed-instrument example
produces: equity, PUT and CALL all accumulate into one record keyed by
the cusip, Alpha appears twice in the initiated bucket, and the newly
initiated PUT counts toward the initiated list and the +3 sentiment. -/
def exMixTrade : CrowdedTrade :=
  { cusip := "M0001", ticker := none, issuer_name := "MIXCO", sector := none,
    funds_initiated := ["Alpha", "Alpha", "Beta"], funds_added := [], funds_trimmed := [],
    funds_exited := [], net_fund_sentiment := 3, aggregate_value_thousands := 150,
    aggregate_shares := 22, float_shares := none, float_ownership_pct := none }

/-- C10: aggregate_signals buckets fund actions by CUSIP alone,
discarding the option-type discriminator — every emitted crowded
trade's initiated bucket lists one entry per new position with that
CUSIP (so one fund can appear several times); the crowded list carries
at most one record per CUSIP; and concretely an equity position, a PUT
and a CALL on the same CUSIP from two funds merge into the single
record `exMixTrade` with Alpha listed twice and the new PUT counted in
the initiated bucket, buying count and +3 net sentiment. -/
theorem aggregation_by_cusip :
    (∀ (ds : List FundDiff) (mc mcons : Nat) (sd : Option (List (String × SectorInfo)))
        (t : CrowdedTrade), t ∈ (aggregateSignals ds mc mcons sd).crowded_trades →
      t.funds_initiated = ds.flatMap (fun d =>
        (d.new_positions.filter (fun p => decide (p.cusip = t.cusip))).map
          (fun _ => d.fund_name)))
  ∧ (∀ (ds : List FundDiff) (mc mcons : Nat) (sd : Option (List (String × SectorInfo))),
      ((aggregateSignals ds mc mcons sd).crowded_trades.map (fun t => t.cusip)).Nodup)
  ∧ (aggregateSignals [exMixA, exMixB] 3 3 none).crowded_trades = [exMixTrade] := by
  refine ⟨?_, ?_, ?_⟩
  · intro ds mc mcons sd t ht
    simp only [aggregateSignals, List.mem_mergeSort, List.mem_map] at ht
    rcases ht with ⟨c', hc', rfl⟩
    exact initiatedOf_flatMap ds c'
  · intro ds mc mcons sd
    have hperm : ((aggregateSignals ds mc mcons sd).crowded_trades.map (fun t => t.cusip)).Perm
        ((((actionCusips ds).filter (fun c => decide (mc ≤ totalBuying ds c))).map
          (mkTrade ds sd)).map (fun t => t.cusip)) :=
      (List.mergeSort_perm _ _).map _
    refine hperm.symm.nodup ?_
    rw [List.map_map]
    have hcomp : ((fun t : CrowdedTrade => t.cusip) ∘ mkTrade ds sd) = id :=
      funext fun c => rfl
    rw [hcomp, List.map_id]
    exact List.Nodup.filter _ (List.nodup_dedup _)
  · simp only [aggregateSignals]
    rw [show (actionCusips [exMixA, exMixB]).filter
        (fun c => decide (3 ≤ totalBuying [exMixA, exMixB] c)) = ["M0001"] from by decide]
    rw [List.map_cons, List.map_nil, List.mergeSort_singleton]
    decide

/-- Witness for `aggregation_by_cusip`: the initiated bucket of the
mixed-instrument record equals the per-position fund-name list. -/
theorem aggregation_by_cusip_witness :
    exMixTrade.funds_initiated = [exMixA, exMixB].flatMap (fun d =>
      (d.new_positions.filter (fun p => decide (p.cusip = exMixTrade.cusip))).map
        (fun _ => d.fund_name)) := by
  refine aggregation_by_cusip.1 [exMixA, exMixB] 3 3 none exMixTrade ?_
  rw [aggregation_by_cusip.2.2]
  exact List.mem_singleton.mpr rfl
